import Mathlib

/-! Verification development for `worker_pool.go` (package `jobs`).

The file embeds the pipeline processor of `worker_pool.go`:

* the data model (`processor`, `pjob`, the collaborators the processor calls),
* the loop body of `processor.run` as a sequential function (`handleJob`),
* `add`, `errors`, `stop`, `newPipesProc`,
* the goroutines of the pool as an interleaving of atomic actions (`Sys.step`),
  one action per access to shared memory, driven by an explicit schedule.

Modelling decisions:

* Go's `error` is `Option String` (`none` is `nil`).
* The factory and the driver are external collaborators.  Their answers are
  functions of their arguments; `Run` is a call that returns.
* `sync.WaitGroup` is its counter, an `Int`.  `Done` subtracts one.  (Go panics
  when the counter becomes negative; `Sys` shows that no reachable state has
  a negative counter.  The counter stays below the `2^31` of its machine
  representation: it counts callers inside `add`, queued and held requests.)
* A driver returned with a nil error is a driver whose `Run` can be called.
* `sync.Map` is an association list; `Store` drops every older entry of the key.
* `sync.Mutex` makes the append to `errs` and the copy in `errors` atomic; each
  is one action of the interleaving.
* Wall-clock values (`t`, `elapsed`) are left out of the log entries.
-/

namespace Jobs

/-! ## Collaborators -/

/-- Go `error` value: `none` is `nil`, `some msg` is a non-nil error with its message. -/
abbrev error := Option String

/-- The part of `jobsApi.Pipeline` the processor reads: `Name()` and `Driver()`. -/
structure Pipeline where
  Name : String
  Driver : String
deriving DecidableEq, Repr

/-- Handle of a `jobsApi.Queue`; the processor only passes it on. -/
structure Queue where
  id : Nat
deriving DecidableEq, Repr

/-- Handle of the `chan<- jobsApi.Commander`; the processor only passes it on. -/
structure CmdCh where
  id : Nat
deriving DecidableEq, Repr

/-- Wrap an integer into the range of Go's `int64`. -/
def wrapInt64 (x : Int) : Int :=
  (x + 2 ^ 63) % 2 ^ 64 - 2 ^ 63

/-- Duration `time.Second*time.Duration(timeout)` in nanoseconds (line 75). -/
def timeoutDuration (timeout : Int) : Int :=
  wrapInt64 (1000000000 * wrapInt64 timeout)

/-- The context of `context.WithTimeout(context.Background(), d)`: its duration `d`. -/
structure Context where
  duration : Int
deriving DecidableEq, Repr

/-- Function `context.WithTimeout` on the background context (line 75). -/
def WithTimeout (d : Int) : Context :=
  { duration := d }

/-- The part of `jobsApi.Driver` the processor calls: the blocking `Run`. -/
structure Driver where
  Run : Context → Pipeline → error

/-- The factory `jobsApi.Constructor`: `DriverFromConfig` returns `(driver, error)`. -/
structure Constructor where
  DriverFromConfig : String → Queue → Pipeline → CmdCh → Driver × error

/-- Struct `pjob` (lines 23-30). -/
structure pjob where
  jc : Constructor
  pipe : Pipeline
  queue : Queue
  cmdCh : CmdCh
  configKey : String
  timeout : Int

/-- Levels of the zap entries the processor writes. -/
inductive Level where
  | debug
  | error
deriving DecidableEq, Repr

/-- One entry handed to the zap logger (time fields left out). -/
structure LogEntry where
  level : Level
  msg : String
  pipeline : Option String
  driver : Option String
  err : error
deriving DecidableEq, Repr

/-- A call the processor makes to a collaborator. -/
inductive Call where
  | DriverFromConfig (jc : Constructor) (configKey : String) (queue : Queue)
      (pipe : Pipeline) (cmdCh : CmdCh)
  | Run (d : Driver) (ctx : Context) (pipe : Pipeline)

/-- Tells whether a call is a driver `Run`. -/
def Call.isRun : Call → Bool
  | Call.Run _ _ _ => true
  | Call.DriverFromConfig _ _ _ _ _ => false

/-- Tells whether a call is a factory call. -/
def Call.isFactory : Call → Bool
  | Call.Run _ _ _ => false
  | Call.DriverFromConfig _ _ _ _ _ => true

/-! ## `sync.Map` -/

/-- The registry `*sync.Map`, pipeline name to driver. -/
abbrev SyncMap := List (String × Driver)

/-- Method `sync.Map.Store`: sets the value of a key, replacing an older one. -/
def SyncMap.Store (m : SyncMap) (k : String) (v : Driver) : SyncMap :=
  (k, v) :: m.filter (fun e => !decide (e.1 = k))

/-- Method `sync.Map.Load`: the value stored under a key, if any. -/
def SyncMap.Load : SyncMap → String → Option Driver
  | [], _ => none
  | (k', v) :: m, k => if k' = k then some v else SyncMap.Load m k

/-- Keys of the registry. -/
def SyncMap.keys (m : SyncMap) : List String :=
  m.map Prod.fst

/-! ## The processor -/

/-- Struct `processor` (lines 12-21).  `log` is what was written to the logger,
`closed` is the closed flag of `queueCh`, `calls` records the calls to the
factory and to the drivers (`mu` only makes the accesses to `errs` atomic). -/
structure processor where
  wg : Int
  consumers : SyncMap
  runners : List String
  log : List LogEntry
  queueCh : List pjob
  closed : Bool
  maxWorkers : Int
  errs : List error
  calls : List Call

/-- Capacity of `queueCh` (line 35). -/
def queueCap : Nat := 100

/-- Method `wg.Done()`. -/
def processor.wgDone (p : processor) : processor :=
  { p with wg := p.wg - 1 }

/-- Method `wg.Add(1)`. -/
def processor.wgAdd (p : processor) : processor :=
  { p with wg := p.wg + 1 }

/-- Statement `p.errs = append(p.errs, err)` under `p.mu` (lines 58-60, 78-80). -/
def processor.appendErr (p : processor) (err : error) : processor :=
  { p with errs := p.errs ++ [err] }

/-- Statement `p.consumers.Store(name, d)` (line 70). -/
def processor.store (p : processor) (name : String) (d : Driver) : processor :=
  { p with consumers := p.consumers.Store name d }

/-- One entry written to the logger. -/
def processor.write (p : processor) (e : LogEntry) : processor :=
  { p with log := p.log ++ [e] }

/-- One call to a collaborator recorded. -/
def processor.record (p : processor) (c : Call) : processor :=
  { p with calls := p.calls ++ [c] }

/-- Entry of line 54. -/
def logInitializing (job : pjob) : LogEntry :=
  { level := Level.debug, msg := "initializing driver",
    pipeline := some job.pipe.Name, driver := some job.pipe.Driver, err := none }

/-- Entry of lines 62-65. -/
def logFailed (job : pjob) (err : error) : LogEntry :=
  { level := Level.error, msg := "failed to initialize driver",
    pipeline := some job.pipe.Name, driver := some job.pipe.Driver, err := err }

/-- Entry of line 72. -/
def logReady (job : pjob) : LogEntry :=
  { level := Level.debug, msg := "driver ready",
    pipeline := some job.pipe.Name, driver := some job.pipe.Driver, err := none }

/-- Entry of line 87. -/
def logExited : LogEntry :=
  { level := Level.debug, msg := "exited from jobs pipeline processor",
    pipeline := none, driver := none, err := none }

/-- The factory call of line 56. -/
def construct (job : pjob) : Driver × error :=
  job.jc.DriverFromConfig job.configKey job.queue job.pipe job.cmdCh

/-- The record of the factory call of line 56. -/
def constructCall (job : pjob) : Call :=
  Call.DriverFromConfig job.jc job.configKey job.queue job.pipe job.cmdCh

/-- The context of line 75. -/
def runCtx (job : pjob) : Context :=
  WithTimeout (timeoutDuration job.timeout)

/-- The record of the `Run` call of line 76. -/
def runCall (job : pjob) (d : Driver) : Call :=
  Call.Run d (runCtx job) job.pipe

/-- The loop body of `processor.run` for one received job (lines 54-84), run
without interference from other goroutines. -/
def handleJob (p : processor) (job : pjob) : processor :=
  let p := p.write (logInitializing job)
  let r := construct job
  let p := p.record (constructCall job)
  let initializedDriver := r.1
  let err := r.2
  if err ≠ none then
    let p := p.appendErr err
    let p := p.wgDone
    let p := p.write (logFailed job err)
    p
  else
    let p := p.store job.pipe.Name initializedDriver
    let p := p.write (logReady job)
    if job.pipe.Name ∈ p.runners then
      let ctx := runCtx job
      let err := initializedDriver.Run ctx job.pipe
      let p := p.record (runCall job initializedDriver)
      let p := if err ≠ none then p.appendErr err else p
      p.wgDone
    else
      p.wgDone

/-- One worker draining a batch of jobs, one after another (the `for ... range`
of line 53 with no other goroutine running). -/
def runWorker (p : processor) (jobs : List pjob) : processor :=
  jobs.foldl handleJob p

/-- Builtin `make([]error, n)`: `n` nil errors. -/
def make (n : Nat) : List error :=
  List.replicate n none

/-- Builtin `copy(dst, src)`: overwrites the first `min (len dst) (len src)`
elements of `dst`. -/
def copy (dst src : List error) : List error :=
  src.take (min dst.length src.length) ++ dst.drop (min dst.length src.length)

/-- Method `processor.errors` (lines 97-103): the returned slice and the processor. -/
def processor.errors (p : processor) : List error × processor :=
  let errs := make p.errs.length
  let errs := copy errs p.errs
  (errs, p)

/-- Function `newPipesProc` (lines 32-48), before `p.run()` starts the workers. -/
def newPipesProc (log : List LogEntry) (consumers : SyncMap) (runners : List String)
    (maxWorkers : Int) : processor :=
  { wg := 0, consumers := consumers, runners := runners, log := log, queueCh := [],
    closed := false, maxWorkers := maxWorkers, errs := [], calls := [] }

/-- What one request adds to the error log: its construction error if the
factory failed; its `Run` error if construction succeeded, the name is in
`runners` and `Run` returned non-nil; nothing otherwise. -/
def contribution (runners : List String) (job : pjob) : List error :=
  if (construct job).2 ≠ none then [(construct job).2]
  else if job.pipe.Name ∈ runners then
    (if (construct job).1.Run (runCtx job) job.pipe ≠ none
      then [(construct job).1.Run (runCtx job) job.pipe] else [])
  else []

/-- Tells whether a request failed, in construction or in `Run`. -/
def failedRequest (runners : List String) (job : pjob) : Bool :=
  decide ((construct job).2 ≠ none) ||
    (decide (job.pipe.Name ∈ runners) &&
      decide ((construct job).1.Run (runCtx job) job.pipe ≠ none))

/-- What a batch of requests adds to the error log, request by request. -/
def contributions (runners : List String) : List pjob → List error
  | [] => []
  | job :: rest => contribution runners job ++ contributions runners rest

/-! ## The pool as interleaved goroutines -/

/-- Channel send `p.queueCh <- job` (line 94) when it can complete: it panics on
a closed channel and blocks while the buffer is full (both: no successor). -/
def processor.send (p : processor) (job : pjob) : Option processor :=
  if p.closed then none
  else if p.queueCh.length < queueCap then some { p with queueCh := p.queueCh ++ [job] }
  else none

/-- Method `processor.add` (lines 92-95), when the send does not block. -/
def processor.add (p : processor) (job : pjob) : Option processor :=
  p.wgAdd.send job

/-- Method `processor.wait` (lines 105-107): returns once the counter is zero. -/
def processor.wait (p : processor) : Option processor :=
  if p.wg = 0 then some p else none

/-- Method `processor.stop` (lines 109-111); closing a closed channel panics. -/
def processor.stop (p : processor) : Option processor :=
  if p.closed then none else some { p with closed := true }

/-- Where a worker goroutine stands in the loop of `processor.run`: the next
statement it executes, with the locals it holds. -/
inductive Pc where
  | recv
  | logInit (job : pjob)
  | construct (job : pjob)
  | errAppend (job : pjob) (err : error)
  | errDone (job : pjob) (err : error)
  | errLog (job : pjob) (err : error)
  | store (job : pjob) (d : Driver)
  | logReady (job : pjob) (d : Driver)
  | checkRun (job : pjob) (d : Driver)
  | callRun (job : pjob) (d : Driver)
  | runAppend (job : pjob) (d : Driver) (err : error)
  | done (job : pjob)
  | logExit
  | exited

/-- The next atomic action of a worker goroutine standing at `pc`:
`recv` line 53, `logInit` line 54, `construct` lines 56-57, `errAppend` lines
58-60, `errDone` line 61, `errLog` lines 62-66, `store` line 70, `logReady`
line 72, `checkRun` line 74, `callRun` lines 75-76, `runAppend` lines 77-82,
`done` line 84, `logExit` line 87.  `none`: blocked, or the goroutine is over. -/
def workerStep (p : processor) : Pc → Option (processor × Pc)
  | Pc.recv =>
    match p.queueCh with
    | job :: rest => some ({ p with queueCh := rest }, Pc.logInit job)
    | [] => if p.closed then some (p, Pc.logExit) else none
  | Pc.logInit job => some (p.write (logInitializing job), Pc.construct job)
  | Pc.construct job =>
    if (construct job).2 ≠ none then
      some (p.record (constructCall job), Pc.errAppend job (construct job).2)
    else
      some (p.record (constructCall job), Pc.store job (construct job).1)
  | Pc.errAppend job err => some (p.appendErr err, Pc.errDone job err)
  | Pc.errDone job err => some (p.wgDone, Pc.errLog job err)
  | Pc.errLog job err => some (p.write (logFailed job err), Pc.recv)
  | Pc.store job d => some (p.store job.pipe.Name d, Pc.logReady job d)
  | Pc.logReady job d => some (p.write (logReady job), Pc.checkRun job d)
  | Pc.checkRun job d =>
    if job.pipe.Name ∈ p.runners then some (p, Pc.callRun job d) else some (p, Pc.done job)
  | Pc.callRun job d =>
    some (p.record (runCall job d), Pc.runAppend job d (d.Run (runCtx job) job.pipe))
  | Pc.runAppend job _ err =>
    some (if err ≠ none then p.appendErr err else p, Pc.done job)
  | Pc.done _ => some (p.wgDone, Pc.recv)
  | Pc.logExit => some (p.write logExited, Pc.exited)
  | Pc.exited => none

/-- A worker running alone until it is back at the head of its loop. -/
def workerRun : Nat → processor → Pc → Option processor
  | 0, _, _ => none
  | fuel + 1, p, pc =>
    match workerStep p pc with
    | none => none
    | some (p', Pc.recv) => some p'
    | some (p', pc') => workerRun fuel p' pc'

/-- The job a worker holds whose `wg.Done()` is still to come. -/
def Pc.pending : Pc → List pjob
  | Pc.logInit job => [job]
  | Pc.construct job => [job]
  | Pc.errAppend job _ => [job]
  | Pc.errDone job _ => [job]
  | Pc.store job _ => [job]
  | Pc.logReady job _ => [job]
  | Pc.checkRun job _ => [job]
  | Pc.callRun job _ => [job]
  | Pc.runAppend job _ _ => [job]
  | Pc.done job => [job]
  | _ => []

/-- The job whose `wg.Done()` is the next action of the worker. -/
def Pc.finishes : Pc → List pjob
  | Pc.errDone job _ => [job]
  | Pc.done job => [job]
  | _ => []

/-- The jobs held by the workers whose `wg.Done()` is still to come. -/
def pendingOf : List Pc → List pjob
  | [] => []
  | pc :: ws => pc.pending ++ pendingOf ws

/-- The pool: the processor, the program counters of its worker goroutines, the
callers inside `add` between `wg.Add(1)` and the completed send, and two
histories: the requests `add` was called with, and the requests whose handling
reached its `wg.Done()`. -/
structure Sys where
  p : processor
  workers : List Pc
  senders : List pjob
  submitted : List pjob
  handled : List pjob

/-- The atomic actions of the pool. -/
inductive Action where
  | addBegin (job : pjob)
  | addSend (i : Nat)
  | work (i : Nat)
  | stop

/-- Method `processor.run` (lines 50-90): one goroutine per `i < maxWorkers`,
each at the head of its loop. -/
def processor.run (p : processor) : List Pc :=
  List.replicate p.maxWorkers.toNat Pc.recv

/-- The pool right after `newPipesProc` returned. -/
def Sys.init (log : List LogEntry) (consumers : SyncMap) (runners : List String)
    (maxWorkers : Int) : Sys :=
  { p := newPipesProc log consumers runners maxWorkers,
    workers := (newPipesProc log consumers runners maxWorkers).run,
    senders := [], submitted := [], handled := [] }

/-- One atomic action of the pool.  `addBegin`: a caller enters `add` and runs
`wg.Add(1)` (line 93).  `addSend i`: the send of the `i`-th caller inside `add`
completes (line 94).  `work i`: worker `i` runs its next action.  `stop`: line 110. -/
def Sys.step (s : Sys) : Action → Option Sys
  | Action.addBegin job =>
    some { s with p := s.p.wgAdd, senders := s.senders ++ [job],
                  submitted := s.submitted ++ [job] }
  | Action.addSend i =>
    match s.senders[i]? with
    | none => none
    | some job =>
      match s.p.send job with
      | none => none
      | some p' => some { s with p := p', senders := s.senders.eraseIdx i }
  | Action.work i =>
    match s.workers[i]? with
    | none => none
    | some pc =>
      match workerStep s.p pc with
      | none => none
      | some (p', pc') =>
        some { s with p := p', workers := s.workers.set i pc',
                      handled := s.handled ++ pc.finishes }
  | Action.stop =>
    match s.p.stop with
    | none => none
    | some p' => some { s with p := p' }

/-- A schedule of atomic actions run from a state of the pool. -/
def Sys.exec : Sys → List Action → Option Sys
  | s, [] => some s
  | s, a :: rest =>
    match s.step a with
    | none => none
    | some s' => Sys.exec s' rest

/-! ## Invariants of the pool -/

/-- The errors a worker standing at `pc` has appended for the request whose
`wg.Done()` is still to come. -/
def Pc.appended (runners : List String) : Pc → List error
  | Pc.errDone _ err => [err]
  | Pc.done job => contribution runners job
  | _ => []

/-- The errors appended by the workers for requests whose `wg.Done()` is still to come. -/
def appendedOf (runners : List String) : List Pc → List error
  | [] => []
  | pc :: ws => pc.appended runners ++ appendedOf runners ws

/-- The request a worker holds whose driver it has already stored. -/
def Pc.stored : Pc → List pjob
  | Pc.logReady job _ => [job]
  | Pc.checkRun job _ => [job]
  | Pc.callRun job _ => [job]
  | Pc.runAppend job _ _ => [job]
  | Pc.done job => [job]
  | _ => []

/-- The locals of a worker standing at `pc` are what the statements before `pc`
computed from the request it holds. -/
def Pc.ok (runners : List String) : Pc → Prop
  | Pc.errAppend job err => (Jobs.construct job).2 = err ∧ err ≠ none
  | Pc.errDone job err => (Jobs.construct job).2 = err ∧ err ≠ none
  | Pc.store job d => (Jobs.construct job).2 = none ∧ (Jobs.construct job).1 = d
  | Pc.logReady job d => (Jobs.construct job).2 = none ∧ (Jobs.construct job).1 = d
  | Pc.checkRun job d => (Jobs.construct job).2 = none ∧ (Jobs.construct job).1 = d
  | Pc.callRun job d =>
    (Jobs.construct job).2 = none ∧ (Jobs.construct job).1 = d ∧ job.pipe.Name ∈ runners
  | Pc.runAppend job d err =>
    (Jobs.construct job).2 = none ∧ (Jobs.construct job).1 = d ∧ job.pipe.Name ∈ runners ∧
      err = d.Run (runCtx job) job.pipe
  | Pc.done job => (Jobs.construct job).2 = none
  | _ => True

/-- The invariant of the pool started with registry `c₀` and run set `runners`. -/
structure Inv (c₀ : SyncMap) (runners : List String) (s : Sys) : Prop where
  runners_eq : s.p.runners = runners
  perm : (s.submitted : Multiset pjob)
    = (s.handled : Multiset pjob) + ((s.senders : Multiset pjob)
        + ((s.p.queueCh : Multiset pjob) + (pendingOf s.workers : Multiset pjob)))
  count : s.p.wg = (s.submitted.length : Int) - (s.handled.length : Int)
  ok : ∀ pc ∈ s.workers, pc.ok runners
  errs : (s.p.errs : Multiset error)
    = (contributions runners s.handled : Multiset error)
        + (appendedOf runners s.workers : Multiset error)
  sound : ∀ (k : String) (d : Driver), SyncMap.Load s.p.consumers k = some d →
    SyncMap.Load c₀ k = some d ∨
      ∃ j ∈ s.submitted, j.pipe.Name = k ∧ (construct j).2 = none ∧ (construct j).1 = d
  complete : ∀ j ∈ s.handled, (construct j).2 = none →
    (SyncMap.Load s.p.consumers j.pipe.Name).isSome = true
  stored : ∀ pc ∈ s.workers, ∀ j ∈ pc.stored,
    (SyncMap.Load s.p.consumers j.pipe.Name).isSome = true
  nodup : c₀.keys.Nodup → s.p.consumers.keys.Nodup

/-! ## Sample collaborators and requests -/

/-- A driver whose `Run` returns nil. -/
def okDriver : Driver :=
  { Run := fun _ _ => none }

/-- A driver whose `Run` returns the error of an expired deadline. -/
def deadlineDriver : Driver :=
  { Run := fun _ _ => some "context deadline exceeded" }

/-- A factory that fails with the given message. -/
def failingFactory (msg : String) : Constructor :=
  { DriverFromConfig := fun _ _ _ _ => (okDriver, some msg) }

/-- A factory that returns the given driver. -/
def buildingFactory (d : Driver) : Constructor :=
  { DriverFromConfig := fun _ _ _ _ => (d, none) }

/-- A request for the pipeline of the given name, built by the given factory. -/
def sampleJob (jc : Constructor) (name : String) : pjob :=
  { jc := jc, pipe := { Name := name, Driver := "memory" }, queue := { id := 0 },
    cmdCh := { id := 0 }, configKey := "jobs.pipelines", timeout := 1 }

/-- A processor at rest with the given registry, run set and counter. -/
def sampleProc (consumers : SyncMap) (runners : List String) (wg : Int) : processor :=
  { newPipesProc [] consumers runners 2 with wg := wg }

/-- First request of the sample batch. -/
def jobA : pjob := sampleJob (buildingFactory okDriver) "alpha"

/-- Second request of the sample batch. -/
def jobB : pjob := sampleJob (buildingFactory deadlineDriver) "beta"

/-- Third request of the sample batch. -/
def jobC : pjob := sampleJob (buildingFactory okDriver) "gamma"

/-- A request whose factory fails with "connect refused". -/
def jobRefused : pjob := sampleJob (failingFactory "connect refused") "alpha"

/-- A schedule for three submitted requests and two workers: the callers and
the workers interleave, and every request is handled to its `wg.Done()`. -/
def batchSchedule : List Action :=
  [Action.addBegin jobA, Action.addBegin jobB, Action.addSend 0, Action.work 0,
   Action.addSend 0, Action.work 1, Action.work 0, Action.work 1, Action.addBegin jobC,
   Action.work 0, Action.work 1, Action.work 1, Action.work 0, Action.addSend 0,
   Action.work 0, Action.work 1, Action.work 0, Action.work 1, Action.work 0,
   Action.work 1, Action.work 0, Action.work 0, Action.work 0, Action.work 0,
   Action.work 0, Action.work 0, Action.work 0]

/-- The pool after `batchSchedule`, started with an empty registry, no pipeline
to run and two workers. -/
def batchFinal : Sys :=
  ((Sys.init [] [] [] 2).exec batchSchedule).getD (Sys.init [] [] [] 2)

/-- A schedule for one submitted request and one worker, up to the end of the
failure branch. -/
def singleSchedule : List Action :=
  [Action.addBegin jobRefused, Action.addSend 0, Action.work 0, Action.work 0,
   Action.work 0, Action.work 0, Action.work 0, Action.work 0]

/-- The pool after `singleSchedule`, started with an empty registry. -/
def refusedFinal : Sys :=
  ((Sys.init [] [] [] 1).exec singleSchedule).getD (Sys.init [] [] [] 1)

/-- The pool after `singleSchedule`, started with a registry that already holds
a driver for the pipeline "alpha". -/
def occupiedFinal : Sys :=
  ((Sys.init [] [("alpha", deadlineDriver)] [] 1).exec singleSchedule).getD
    (Sys.init [] [("alpha", deadlineDriver)] [] 1)

/-- A schedule for two submitted requests of one pipeline name and one worker:
the first is built and registered, the second is refused by its factory. -/
def clashSchedule : List Action :=
  [Action.addBegin jobA, Action.addBegin jobRefused, Action.addSend 0, Action.addSend 0,
   Action.work 0, Action.work 0, Action.work 0, Action.work 0, Action.work 0,
   Action.work 0, Action.work 0,
   Action.work 0, Action.work 0, Action.work 0, Action.work 0, Action.work 0,
   Action.work 0]

/-- The pool after `clashSchedule`, started with an empty registry. -/
def clashFinal : Sys :=
  ((Sys.init [] [] [] 1).exec clashSchedule).getD (Sys.init [] [] [] 1)

/-! ## The loop body, one request -/

theorem handleJob_fail (p : processor) (job : pjob) (h : (construct job).2 ≠ none) :
    handleJob p job =
      ((((p.write (logInitializing job)).record (constructCall job)).appendErr
        (construct job).2).wgDone).write (logFailed job (construct job).2) := by
  simp only [handleJob, if_pos h]

theorem handleJob_skip (p : processor) (job : pjob) (h : (construct job).2 = none)
    (hr : job.pipe.Name ∉ p.runners) :
    handleJob p job =
      ((((p.write (logInitializing job)).record (constructCall job)).store job.pipe.Name
        (construct job).1).write (logReady job)).wgDone := by
  have hr2 : job.pipe.Name ∉ ((((p.write (logInitializing job)).record
      (constructCall job)).store job.pipe.Name (construct job).1).write
      (logReady job)).runners := hr
  simp only [handleJob, h, ne_eq, not_true_eq_false, if_false, if_neg hr2]

theorem handleJob_run (p : processor) (job : pjob) (h : (construct job).2 = none)
    (hr : job.pipe.Name ∈ p.runners) :
    handleJob p job =
      (if (construct job).1.Run (runCtx job) job.pipe ≠ none then
        (((((p.write (logInitializing job)).record (constructCall job)).store job.pipe.Name
          (construct job).1).write (logReady job)).record
          (runCall job (construct job).1)).appendErr
          ((construct job).1.Run (runCtx job) job.pipe)
       else
        ((((p.write (logInitializing job)).record (constructCall job)).store job.pipe.Name
          (construct job).1).write (logReady job)).record
          (runCall job (construct job).1)).wgDone := by
  have hr2 : job.pipe.Name ∈ ((((p.write (logInitializing job)).record
      (constructCall job)).store job.pipe.Name (construct job).1).write
      (logReady job)).runners := hr
  simp only [handleJob, h, ne_eq, not_true_eq_false, if_false, if_pos hr2]

/-- The loop body is the worker's atomic actions run one after another: a
worker that received `job` is back at the head of its loop after at most
eight actions, with the processor `handleJob p job`. -/
theorem workerRun_eq_handleJob (p : processor) (job : pjob) :
    workerRun 8 p (Pc.logInit job) = some (handleJob p job) := by
  by_cases h : (construct job).2 = none
  · by_cases hr : job.pipe.Name ∈ p.runners
    · rw [handleJob_run p job h hr]
      have hr2 : job.pipe.Name ∈ ((((p.write (logInitializing job)).record
          (constructCall job)).store job.pipe.Name (construct job).1).write
          (logReady job)).runners := hr
      simp only [workerRun, workerStep, h, ne_eq, not_true_eq_false, if_false, if_pos hr2]
    · rw [handleJob_skip p job h hr]
      have hr2 : job.pipe.Name ∉ ((((p.write (logInitializing job)).record
          (constructCall job)).store job.pipe.Name (construct job).1).write
          (logReady job)).runners := hr
      simp only [workerRun, workerStep, h, ne_eq, not_true_eq_false, if_false, if_neg hr2]
  · rw [handleJob_fail p job h]
    simp only [workerRun, workerStep, ne_eq, h, not_false_eq_true, if_true]

theorem handleJob_wg (p : processor) (job : pjob) : (handleJob p job).wg = p.wg - 1 := by
  by_cases h : (construct job).2 = none
  · by_cases hr : job.pipe.Name ∈ p.runners
    · rw [handleJob_run p job h hr]
      split_ifs <;> rfl
    · rw [handleJob_skip p job h hr]; rfl
  · rw [handleJob_fail p job h]; rfl

theorem handleJob_runners (p : processor) (job : pjob) :
    (handleJob p job).runners = p.runners := by
  by_cases h : (construct job).2 = none
  · by_cases hr : job.pipe.Name ∈ p.runners
    · rw [handleJob_run p job h hr]
      split_ifs <;> rfl
    · rw [handleJob_skip p job h hr]; rfl
  · rw [handleJob_fail p job h]; rfl

theorem handleJob_errs (p : processor) (job : pjob) :
    (handleJob p job).errs = p.errs ++ contribution p.runners job := by
  by_cases h : (construct job).2 = none
  · by_cases hr : job.pipe.Name ∈ p.runners
    · rw [handleJob_run p job h hr]
      by_cases hrun : (construct job).1.Run (runCtx job) job.pipe = none
      · simp [contribution, h, hr, hrun, processor.wgDone, processor.record,
          processor.write, processor.store]
      · simp [contribution, h, hr, hrun, processor.wgDone, processor.record,
          processor.write, processor.store, processor.appendErr]
    · rw [handleJob_skip p job h hr]
      simp [contribution, h, hr, processor.wgDone, processor.record,
        processor.write, processor.store]
  · rw [handleJob_fail p job h]
    simp [contribution, h, processor.wgDone, processor.record,
      processor.write, processor.appendErr]

theorem handleJob_calls (p : processor) (job : pjob) :
    (handleJob p job).calls = p.calls ++ constructCall job ::
      (if (construct job).2 = none ∧ job.pipe.Name ∈ p.runners
        then [runCall job (construct job).1] else []) := by
  by_cases h : (construct job).2 = none
  · by_cases hr : job.pipe.Name ∈ p.runners
    · have hc : (construct job).2 = none ∧ job.pipe.Name ∈ p.runners := ⟨h, hr⟩
      rw [handleJob_run p job h hr, if_pos hc]
      split_ifs <;>
      simp [processor.wgDone, processor.record,
          processor.write, processor.store, processor.appendErr]
    · rw [handleJob_skip p job h hr]
      simp [h, hr, processor.wgDone, processor.record,
        processor.write, processor.store]
  · rw [handleJob_fail p job h]
    simp [h, processor.wgDone, processor.record,
      processor.write, processor.appendErr]

theorem handleJob_consumers (p : processor) (job : pjob) :
    (handleJob p job).consumers =
      (if (construct job).2 = none then p.consumers.Store job.pipe.Name (construct job).1
       else p.consumers) := by
  by_cases h : (construct job).2 = none
  · by_cases hr : job.pipe.Name ∈ p.runners
    · rw [handleJob_run p job h hr]
      split_ifs <;>
      simp [h, processor.wgDone, processor.record,
          processor.write, processor.store, processor.appendErr]
    · rw [handleJob_skip p job h hr]
      simp [h, processor.wgDone, processor.record,
        processor.write, processor.store]
  · rw [handleJob_fail p job h]
    simp [h, processor.wgDone, processor.record,
      processor.write, processor.appendErr]

/-! ## The registry -/

theorem Load_filter_self (m : SyncMap) (k : String) :
    SyncMap.Load (m.filter (fun e => !decide (e.1 = k))) k = none := by
  induction m with
  | nil => rfl
  | cons e m ih =>
    obtain ⟨k', v⟩ := e
    by_cases hk : k' = k
    · simp [List.filter_cons, hk, ih]
    · simp [List.filter_cons, hk, SyncMap.Load, ih]

theorem Load_filter_ne (m : SyncMap) (k k' : String) (hne : k' ≠ k) :
    SyncMap.Load (m.filter (fun e => !decide (e.1 = k))) k' = SyncMap.Load m k' := by
  induction m with
  | nil => rfl
  | cons e m ih =>
    obtain ⟨k₀, v⟩ := e
    by_cases hk : k₀ = k
    · have h2 : ¬ k₀ = k' := fun h => hne (h ▸ hk)
      have h3 : ¬ k = k' := fun h => hne h.symm
      simp [List.filter_cons, hk, SyncMap.Load, ih, h3]
    · simp [List.filter_cons, hk, SyncMap.Load, ih]

theorem Load_Store_self (m : SyncMap) (k : String) (v : Driver) :
    SyncMap.Load (m.Store k v) k = some v := by
  simp [SyncMap.Store, SyncMap.Load]

theorem Load_Store_ne (m : SyncMap) (k k' : String) (v : Driver) (hne : k' ≠ k) :
    SyncMap.Load (m.Store k v) k' = SyncMap.Load m k' := by
  have h2 : ¬ k = k' := fun h => hne h.symm
  simp [SyncMap.Store, SyncMap.Load, h2, Load_filter_ne m k k' hne]

theorem Store_entries_of_key (m : SyncMap) (k : String) (v : Driver) :
    (m.Store k v).filter (fun e => decide (e.1 = k)) = [(k, v)] := by
  simp [SyncMap.Store, List.filter_cons, List.filter_filter]

/-! ## Claims about one request -/

/-- Claim C1: handling one request runs `wg.Done()` exactly once, whichever of
the four branches is taken (factory fails; built and not in `runners`; built,
in `runners`, `Run` returns nil; built, in `runners`, `Run` returns an error):
the counter after the step is the counter before minus one. -/
theorem C1_handleJob_decrements_once (p : processor) (job : pjob) :
    (handleJob p job).wg = p.wg - 1 :=
  handleJob_wg p job

/-- Claim C2: when the factory returns a non-nil error `e`, handling the request
appends `e` as the single new last element of the error log, leaves the
registry as it was, and calls `Run` on no driver (the only call made is the
factory call). -/
theorem C2_construction_failure (p : processor) (job : pjob) (e : String)
    (h : (construct job).2 = some e) :
    (handleJob p job).errs = p.errs ++ [some e] ∧
    (handleJob p job).consumers = p.consumers ∧
    (handleJob p job).calls = p.calls ++ [constructCall job] ∧
    (handleJob p job).calls.filter Call.isRun = p.calls.filter Call.isRun := by
  have hne : (construct job).2 ≠ none := by rw [h]; exact Option.some_ne_none e
  have hcalls : (handleJob p job).calls = p.calls ++ [constructCall job] := by
    rw [handleJob_calls]
    simp [hne]
  refine ⟨?_, ?_, hcalls, ?_⟩
  · rw [handleJob_errs]
    simp [contribution, h]
  · rw [handleJob_consumers, if_neg hne]
  · rw [hcalls]
    simp [List.filter_append, constructCall, Call.isRun]

/-- Witness of C2: a request whose factory fails with "connect refused". -/
theorem C2_construction_failure_witness :
    (handleJob (sampleProc [("a", okDriver)] ["p1"] 1)
        (sampleJob (failingFactory "connect refused") "p1")).errs
      = (sampleProc [("a", okDriver)] ["p1"] 1).errs ++ [some "connect refused"] ∧
    (handleJob (sampleProc [("a", okDriver)] ["p1"] 1)
        (sampleJob (failingFactory "connect refused") "p1")).consumers
      = (sampleProc [("a", okDriver)] ["p1"] 1).consumers ∧
    (handleJob (sampleProc [("a", okDriver)] ["p1"] 1)
        (sampleJob (failingFactory "connect refused") "p1")).calls
      = (sampleProc [("a", okDriver)] ["p1"] 1).calls
          ++ [constructCall (sampleJob (failingFactory "connect refused") "p1")] ∧
    (handleJob (sampleProc [("a", okDriver)] ["p1"] 1)
        (sampleJob (failingFactory "connect refused") "p1")).calls.filter Call.isRun
      = (sampleProc [("a", okDriver)] ["p1"] 1).calls.filter Call.isRun :=
  C2_construction_failure (sampleProc [("a", okDriver)] ["p1"] 1)
    (sampleJob (failingFactory "connect refused") "p1") "connect refused" rfl

/-- Claim C3: when construction succeeds, `Run` is invoked (once, on the driver
just built, with the request's pipeline) if and only if the pipeline name is
in `runners`; when the name is absent, no `Run` is invoked and the error log
is unchanged. -/
theorem C3_run_iff_in_runners (p : processor) (job : pjob)
    (h : (construct job).2 = none) :
    (handleJob p job).calls = p.calls ++ constructCall job ::
      (if job.pipe.Name ∈ p.runners then [runCall job (construct job).1] else []) ∧
    (((handleJob p job).calls.filter Call.isRun).length
        = (p.calls.filter Call.isRun).length + 1 ↔ job.pipe.Name ∈ p.runners) ∧
    (job.pipe.Name ∉ p.runners →
      (handleJob p job).calls.filter Call.isRun = p.calls.filter Call.isRun ∧
      (handleJob p job).errs = p.errs) := by
  have hcalls : (handleJob p job).calls = p.calls ++ constructCall job ::
      (if job.pipe.Name ∈ p.runners then [runCall job (construct job).1] else []) := by
    rw [handleJob_calls]
    simp [h]
  refine ⟨hcalls, ?_, ?_⟩
  · rw [hcalls]
    by_cases hr : job.pipe.Name ∈ p.runners
    · simp [hr, List.filter_append, List.filter_cons, constructCall, runCall, Call.isRun]
    · simp [hr, List.filter_append, List.filter_cons, constructCall, Call.isRun]
  · intro hr
    constructor
    · rw [hcalls]
      simp [hr, List.filter_append, List.filter_cons, constructCall, Call.isRun]
    · rw [handleJob_errs]
      simp [contribution, h, hr]

/-- Witness of C3: a request that is built and whose name is in `runners`. -/
theorem C3_run_iff_in_runners_witness :
    (handleJob (sampleProc [] ["p1"] 1) (sampleJob (buildingFactory okDriver) "p1")).calls
      = (sampleProc [] ["p1"] 1).calls
          ++ constructCall (sampleJob (buildingFactory okDriver) "p1") ::
            (if (sampleJob (buildingFactory okDriver) "p1").pipe.Name
                  ∈ (sampleProc [] ["p1"] 1).runners
              then [runCall (sampleJob (buildingFactory okDriver) "p1")
                      (construct (sampleJob (buildingFactory okDriver) "p1")).1]
              else []) :=
  (C3_run_iff_in_runners (sampleProc [] ["p1"] 1)
    (sampleJob (buildingFactory okDriver) "p1") rfl).1

/-- Claim C4: when construction succeeds and the name is in `runners`, a non-nil
error `r` returned by `Run` (a deadline error included) is appended to the
error log, a nil result leaves the log unchanged, and in both cases the driver
stays stored in the registry under the pipeline name. -/
theorem C4_run_error_recorded (p : processor) (job : pjob)
    (h : (construct job).2 = none) (hr : job.pipe.Name ∈ p.runners) :
    (∀ r : String, (construct job).1.Run (runCtx job) job.pipe = some r →
      (handleJob p job).errs = p.errs ++ [some r]) ∧
    ((construct job).1.Run (runCtx job) job.pipe = none →
      (handleJob p job).errs = p.errs) ∧
    SyncMap.Load (handleJob p job).consumers job.pipe.Name = some (construct job).1 := by
  refine ⟨?_, ?_, ?_⟩
  · intro r hrun
    rw [handleJob_errs]
    simp [contribution, h, hr, hrun]
  · intro hrun
    rw [handleJob_errs]
    simp [contribution, h, hr, hrun]
  · rw [handleJob_consumers, if_pos h, Load_Store_self]

/-- Witness of C4: a request in `runners` whose `Run` ends on its deadline. -/
theorem C4_run_error_recorded_witness :
    (handleJob (sampleProc [] ["p1"] 1) (sampleJob (buildingFactory deadlineDriver) "p1")).errs
      = (sampleProc [] ["p1"] 1).errs ++ [some "context deadline exceeded"] :=
  (C4_run_error_recorded (sampleProc [] ["p1"] 1)
    (sampleJob (buildingFactory deadlineDriver) "p1") rfl (by decide)).1
    "context deadline exceeded" rfl

/-- Claim C5: when construction succeeds with driver `d`, the registry afterwards
maps the pipeline name to `d`, holds exactly one entry for that name (an older
one is replaced), and every other name is as before; so of two built requests
of one name handled one after the other, the registry holds the later driver. -/
theorem C5_store_last_write_wins (p : processor) (job : pjob)
    (h : (construct job).2 = none) :
    SyncMap.Load (handleJob p job).consumers job.pipe.Name = some (construct job).1 ∧
    (handleJob p job).consumers.filter (fun e => decide (e.1 = job.pipe.Name))
      = [(job.pipe.Name, (construct job).1)] ∧
    (∀ k : String, k ≠ job.pipe.Name →
      SyncMap.Load (handleJob p job).consumers k = SyncMap.Load p.consumers k) ∧
    (∀ later : pjob, (construct later).2 = none → later.pipe.Name = job.pipe.Name →
      SyncMap.Load (handleJob (handleJob p job) later).consumers job.pipe.Name
        = some (construct later).1) := by
  refine ⟨?_, ?_, ?_, ?_⟩
  · rw [handleJob_consumers, if_pos h, Load_Store_self]
  · rw [handleJob_consumers, if_pos h, Store_entries_of_key]
  · intro k hk
    rw [handleJob_consumers, if_pos h, Load_Store_ne _ _ _ _ hk]
  · intro later hl hname
    rw [handleJob_consumers, if_pos hl, hname, Load_Store_self]

/-- Witness of C5: a built request replaces the entry stored under its name. -/
theorem C5_store_last_write_wins_witness :
    SyncMap.Load
      (handleJob (sampleProc [("p1", deadlineDriver)] [] 1)
        (sampleJob (buildingFactory okDriver) "p1")).consumers
      (sampleJob (buildingFactory okDriver) "p1").pipe.Name
      = some (construct (sampleJob (buildingFactory okDriver) "p1")).1 :=
  (C5_store_last_write_wins (sampleProc [("p1", deadlineDriver)] [] 1)
    (sampleJob (buildingFactory okDriver) "p1") rfl).1

/-! ## `errors` -/

theorem copy_make (src : List error) : copy (make src.length) src = src := by
  simp [copy, make]

/-- Claim C8: `errors()` returns a sequence equal to the error log (same length,
same errors, same order), leaves the processor unchanged (error log, registry
and counter included), and a second call returns the same sequence. -/
theorem C8_errors_snapshot (p : processor) :
    p.errors.1 = p.errs ∧ p.errors.1.length = p.errs.length ∧
    p.errors.2 = p ∧
    p.errors.2.errs = p.errs ∧ p.errors.2.consumers = p.consumers ∧
    p.errors.2.wg = p.wg ∧
    p.errors.2.errors.1 = p.errors.1 := by
  have h1 : p.errors.1 = p.errs := copy_make p.errs
  have h2 : p.errors.2 = p := rfl
  refine ⟨h1, by rw [h1], h2, by rw [h2], by rw [h2], by rw [h2], by rw [h2]⟩

/-! ## A worker draining a batch -/

theorem runWorker_cons (p : processor) (job : pjob) (jobs : List pjob) :
    runWorker p (job :: jobs) = runWorker (handleJob p job) jobs := rfl

theorem runWorker_runners (p : processor) (jobs : List pjob) :
    (runWorker p jobs).runners = p.runners := by
  induction jobs generalizing p with
  | nil => rfl
  | cons job jobs ih => rw [runWorker_cons, ih, handleJob_runners]

theorem runWorker_errs (p : processor) (jobs : List pjob) :
    (runWorker p jobs).errs = p.errs ++ contributions p.runners jobs := by
  induction jobs generalizing p with
  | nil => simp [runWorker, contributions]
  | cons job jobs ih =>
    rw [runWorker_cons, ih, handleJob_errs, handleJob_runners]
    simp [contributions]

theorem runWorker_wg (p : processor) (jobs : List pjob) :
    (runWorker p jobs).wg = p.wg - jobs.length := by
  induction jobs generalizing p with
  | nil => simp [runWorker]
  | cons job jobs ih =>
    rw [runWorker_cons, ih, handleJob_wg]
    simp only [List.length_cons, Nat.cast_add, Nat.cast_one]
    ring

theorem runWorker_factory_calls (p : processor) (jobs : List pjob) :
    (runWorker p jobs).calls.filter Call.isFactory
      = p.calls.filter Call.isFactory ++ jobs.map constructCall := by
  induction jobs generalizing p with
  | nil => simp [runWorker]
  | cons job jobs ih =>
    rw [runWorker_cons, ih, handleJob_calls]
    split_ifs <;>
    simp [List.filter_append, List.filter_cons, constructCall, runCall, Call.isFactory]

theorem contribution_length_le (runners : List String) (job : pjob) :
    (contribution runners job).length ≤ 1 := by
  unfold contribution
  split_ifs <;> simp

theorem contribution_length (runners : List String) (job : pjob) :
    (contribution runners job).length = if failedRequest runners job then 1 else 0 := by
  unfold contribution failedRequest
  by_cases h : (construct job).2 = none
  · by_cases hr : job.pipe.Name ∈ runners
    · by_cases hrun : (construct job).1.Run (runCtx job) job.pipe = none
      · simp [h, hr, hrun]
      · simp [h, hr, hrun]
    · simp [h, hr]
  · simp [h]

theorem contributions_length (runners : List String) (jobs : List pjob) :
    (contributions runners jobs).length = (jobs.filter (failedRequest runners)).length := by
  induction jobs with
  | nil => rfl
  | cons job jobs ih =>
    simp only [contributions, List.length_append, ih, contribution_length, List.filter_cons]
    by_cases hf : failedRequest runners job = true
    · simp [hf]; omega
    · simp [hf]

/-- Claim C10: a failed request never stops the requests after it.  A worker that
handles a batch one request after another, from an empty error log, handles
every request (one factory call each, in order; the counter drops by the
size of the batch) and ends with the error log equal to the concatenation, in
handling order, of each request's contribution; each request adds at most one
error, and the length of the log is the number of failed requests. -/
theorem C10_failure_is_local (p : processor) (jobs : List pjob) (h : p.errs = []) :
    (runWorker p jobs).errs = contributions p.runners jobs ∧
    (runWorker p jobs).calls.filter Call.isFactory
      = p.calls.filter Call.isFactory ++ jobs.map constructCall ∧
    (runWorker p jobs).wg = p.wg - jobs.length ∧
    (∀ job : pjob, (contribution p.runners job).length ≤ 1) ∧
    (runWorker p jobs).errs.length = (jobs.filter (failedRequest p.runners)).length := by
  have he : (runWorker p jobs).errs = contributions p.runners jobs := by
    rw [runWorker_errs, h, List.nil_append]
  exact ⟨he, runWorker_factory_calls p jobs, runWorker_wg p jobs,
    fun job => contribution_length_le p.runners job,
    by rw [he, contributions_length]⟩

/-- Witness of C10: a failing request, then a request whose `Run` fails, then a
request that is only registered. -/
theorem C10_failure_is_local_witness :
    (runWorker (sampleProc [] ["p2"] 3)
      [sampleJob (failingFactory "connect refused") "p1",
       sampleJob (buildingFactory deadlineDriver) "p2",
       sampleJob (buildingFactory okDriver) "p3"]).errs
      = [some "connect refused", some "context deadline exceeded"] :=
  (C10_failure_is_local (sampleProc [] ["p2"] 3)
      [sampleJob (failingFactory "connect refused") "p1",
       sampleJob (buildingFactory deadlineDriver) "p2",
       sampleJob (buildingFactory okDriver) "p3"] rfl).1.trans (by decide)

/-! ## Lists of workers -/

theorem getElem?_split {α : Type} (l : List α) (i : Nat) (a b : α) (h : l[i]? = some a) :
    ∃ l₁ l₂, l = l₁ ++ a :: l₂ ∧ l.set i b = l₁ ++ b :: l₂ ∧ l.eraseIdx i = l₁ ++ l₂ := by
  induction l generalizing i with
  | nil => simp at h
  | cons x l ih =>
    cases i with
    | zero =>
      simp at h
      subst h
      exact ⟨[], l, rfl, rfl, rfl⟩
    | succ i =>
      simp at h
      obtain ⟨l₁, l₂, h1, h2, h3⟩ := ih i h
      refine ⟨x :: l₁, l₂, ?_, ?_, ?_⟩
      · rw [h1]; rfl
      · simp [h2]
      · simp [h3]

theorem pendingOf_append (l₁ l₂ : List Pc) :
    pendingOf (l₁ ++ l₂) = pendingOf l₁ ++ pendingOf l₂ := by
  induction l₁ with
  | nil => rfl
  | cons pc l₁ ih => simp [pendingOf, ih]

theorem appendedOf_append (runners : List String) (l₁ l₂ : List Pc) :
    appendedOf runners (l₁ ++ l₂) = appendedOf runners l₁ ++ appendedOf runners l₂ := by
  induction l₁ with
  | nil => rfl
  | cons pc l₁ ih => simp [appendedOf, ih]

theorem contributions_append (runners : List String) (l₁ l₂ : List pjob) :
    contributions runners (l₁ ++ l₂) = contributions runners l₁ ++ contributions runners l₂ := by
  induction l₁ with
  | nil => rfl
  | cons j l₁ ih => simp [contributions, ih]

theorem Load_Store_cases (m : SyncMap) (k k' : String) (v d : Driver)
    (h : SyncMap.Load (m.Store k v) k' = some d) :
    (k' = k ∧ d = v) ∨ SyncMap.Load m k' = some d := by
  by_cases hk : k' = k
  · subst hk
    rw [Load_Store_self] at h
    left
    exact ⟨rfl, (Option.some.inj h).symm⟩
  · rw [Load_Store_ne _ _ _ _ hk] at h
    exact Or.inr h

theorem Load_Store_isSome (m : SyncMap) (k k' : String) (v : Driver)
    (h : (SyncMap.Load m k').isSome = true) :
    (SyncMap.Load (m.Store k v) k').isSome = true := by
  by_cases hk : k' = k
  · subst hk
    rw [Load_Store_self]; rfl
  · rw [Load_Store_ne _ _ _ _ hk]; exact h

theorem mem_keys_iff (m : SyncMap) (k : String) :
    k ∈ m.keys ↔ (SyncMap.Load m k).isSome = true := by
  induction m with
  | nil => simp [SyncMap.keys, SyncMap.Load]
  | cons e m ih =>
    obtain ⟨k₀, v⟩ := e
    by_cases hk : k₀ = k
    · simp [SyncMap.keys, SyncMap.Load, hk]
    · have hk2 : ¬ k = k₀ := fun h => hk h.symm
      simp only [SyncMap.keys] at ih
      simp [SyncMap.keys, SyncMap.Load, hk, hk2, ih]

theorem keys_Store_nodup (m : SyncMap) (k : String) (v : Driver)
    (h : (SyncMap.keys m).Nodup) : (SyncMap.keys (m.Store k v)).Nodup := by
  have h1 : (SyncMap.keys (m.filter (fun e => !decide (e.1 = k)))).Nodup := by
    unfold SyncMap.keys at *
    exact List.Nodup.sublist (List.Sublist.map _ (List.filter_sublist m)) h
  have h2 : k ∉ SyncMap.keys (m.filter (fun e => !decide (e.1 = k))) := by
    rw [mem_keys_iff, Load_filter_self]
    simp
  unfold SyncMap.Store
  unfold SyncMap.keys at *
  simp only [List.map_cons, List.nodup_cons]
  exact ⟨h2, h1⟩

theorem Load_eq_none_all (m : SyncMap) (h : ∀ k, SyncMap.Load m k = none) : m = [] := by
  cases m with
  | nil => rfl
  | cons e m =>
    obtain ⟨k₀, v⟩ := e
    have := h k₀
    simp [SyncMap.Load] at this


/-! ## One atomic action of a worker -/

theorem workerStep_runners (p p' : processor) (pc pc' : Pc)
    (h : workerStep p pc = some (p', pc')) : p'.runners = p.runners := by
  cases pc <;> simp only [workerStep] at h
  case recv =>
    cases hq : p.queueCh with
    | nil =>
      rw [hq] at h
      simp only at h
      split_ifs at h
      simp at h
      rw [← h.1]
    | cons j q =>
      rw [hq] at h
      simp at h
      rw [← h.1]
  all_goals (try split_ifs at h)
  all_goals simp at h
  all_goals (try (obtain ⟨rfl, rfl⟩ := h))
  all_goals (try rfl)

theorem workerStep_perm (p p' : processor) (pc pc' : Pc)
    (h : workerStep p pc = some (p', pc')) :
    (p.queueCh : Multiset pjob) + (pc.pending : Multiset pjob)
      = (p'.queueCh : Multiset pjob) + ((pc'.pending : Multiset pjob)
          + (pc.finishes : Multiset pjob)) := by
  cases pc <;> simp only [workerStep] at h
  case recv =>
    cases hq : p.queueCh with
    | nil =>
      rw [hq] at h
      simp only at h
      split_ifs at h
      simp at h
      obtain ⟨rfl, rfl⟩ := h
      simp [Pc.pending, Pc.finishes, hq]
    | cons j q =>
      rw [hq] at h
      simp at h
      obtain ⟨rfl, rfl⟩ := h
      simp [Pc.pending, Pc.finishes, hq]
      rw [← Multiset.cons_coe, ← Multiset.singleton_add, add_comm]
  all_goals (try split_ifs at h)
  all_goals simp at h
  all_goals (try (obtain ⟨rfl, rfl⟩ := h))
  all_goals (simp [Pc.pending, Pc.finishes, processor.write, processor.record,
    processor.appendErr, processor.wgDone, processor.store])

theorem workerStep_wg (p p' : processor) (pc pc' : Pc)
    (h : workerStep p pc = some (p', pc')) :
    p'.wg = p.wg - (pc.finishes.length : Nat) := by
  cases pc <;> simp only [workerStep] at h
  case recv =>
    cases hq : p.queueCh with
    | nil =>
      rw [hq] at h
      simp only at h
      split_ifs at h
      simp at h
      obtain ⟨rfl, rfl⟩ := h
      simp [Pc.pending, Pc.finishes, hq]
    | cons j q =>
      rw [hq] at h
      simp at h
      obtain ⟨rfl, rfl⟩ := h
      simp [Pc.pending, Pc.finishes]
  all_goals (try split_ifs at h)
  all_goals simp at h
  all_goals (try (obtain ⟨rfl, rfl⟩ := h))
  all_goals (simp [Pc.pending, Pc.finishes, processor.write, processor.record,
    processor.appendErr, processor.wgDone, processor.store])


theorem coe_snoc {α : Type} (l : List α) (a : α) :
    ((l ++ [a] : List α) : Multiset α) = (l : Multiset α) + {a} := by
  rw [← Multiset.coe_add, Multiset.coe_singleton]

theorem workerStep_ok (p p' : processor) (pc pc' : Pc)
    (h : workerStep p pc = some (p', pc')) (hok : pc.ok p.runners) : pc'.ok p.runners := by
  cases pc <;> simp only [workerStep] at h
  case recv =>
    cases hq : p.queueCh with
    | nil =>
      rw [hq] at h
      simp only at h
      split_ifs at h
      simp at h
      obtain ⟨rfl, rfl⟩ := h
      simp [Pc.ok]
    | cons j q =>
      rw [hq] at h
      simp at h
      obtain ⟨rfl, rfl⟩ := h
      simp [Pc.ok]
  all_goals (try split_ifs at h)
  all_goals simp at h
  all_goals (try (obtain ⟨rfl, rfl⟩ := h))
  all_goals (simp_all [Pc.ok, processor.write, processor.record,
    processor.appendErr, processor.wgDone, processor.store])

theorem workerStep_errs (p p' : processor) (pc pc' : Pc)
    (h : workerStep p pc = some (p', pc')) (hok : pc.ok p.runners) :
    (p'.errs : Multiset error) + (pc.appended p.runners : Multiset error)
      = (p.errs : Multiset error) + ((pc'.appended p.runners : Multiset error)
          + (contributions p.runners pc.finishes : Multiset error)) := by
  cases pc <;> simp only [workerStep] at h
  case recv =>
    cases hq : p.queueCh with
    | nil =>
      rw [hq] at h
      simp only at h
      split_ifs at h
      simp at h
      obtain ⟨rfl, rfl⟩ := h
      simp [Pc.appended, Pc.finishes, contributions]
    | cons j q =>
      rw [hq] at h
      simp at h
      obtain ⟨rfl, rfl⟩ := h
      simp [Pc.appended, Pc.finishes, contributions]
  all_goals (try split_ifs at h)
  all_goals simp at h
  all_goals (try (obtain ⟨rfl, rfl⟩ := h))
  all_goals (simp_all [Pc.ok, Pc.appended, Pc.finishes, contributions, contribution,
    coe_snoc, processor.write, processor.record,
    processor.appendErr, processor.wgDone, processor.store])


theorem workerStep_consumers (p p' : processor) (pc pc' : Pc)
    (h : workerStep p pc = some (p', pc')) :
    p'.consumers = p.consumers ∨
      ∃ job d, pc = Pc.store job d ∧ pc' = Pc.logReady job d ∧
        p'.consumers = p.consumers.Store job.pipe.Name d := by
  cases pc <;> simp only [workerStep] at h
  case recv =>
    cases hq : p.queueCh with
    | nil =>
      rw [hq] at h
      simp only at h
      split_ifs at h
      simp at h
      obtain ⟨rfl, rfl⟩ := h
      exact Or.inl rfl
    | cons j q =>
      rw [hq] at h
      simp at h
      obtain ⟨rfl, rfl⟩ := h
      exact Or.inl rfl
  case store job d =>
    simp at h
    obtain ⟨rfl, rfl⟩ := h
    exact Or.inr ⟨job, d, rfl, rfl, rfl⟩
  all_goals (try split_ifs at h)
  all_goals simp at h
  all_goals (try (obtain ⟨rfl, rfl⟩ := h))
  all_goals exact Or.inl rfl

theorem workerStep_stored (p p' : processor) (pc pc' : Pc)
    (h : workerStep p pc = some (p', pc')) :
    ∀ j ∈ pc'.stored, j ∈ pc.stored ∨
      (SyncMap.Load p'.consumers j.pipe.Name).isSome = true := by
  cases pc <;> simp only [workerStep] at h
  case recv =>
    cases hq : p.queueCh with
    | nil =>
      rw [hq] at h
      simp only at h
      split_ifs at h
      simp at h
      obtain ⟨rfl, rfl⟩ := h
      simp [Pc.stored]
    | cons j q =>
      rw [hq] at h
      simp at h
      obtain ⟨rfl, rfl⟩ := h
      simp [Pc.stored]
  all_goals (try split_ifs at h)
  all_goals simp at h
  all_goals (try (obtain ⟨rfl, rfl⟩ := h))
  all_goals (simp [Pc.stored, processor.store, Load_Store_self])

theorem finishes_stored_or_failed (runners : List String) (pc : Pc) (hok : pc.ok runners) :
    ∀ j ∈ pc.finishes, j ∈ pc.stored ∨ (construct j).2 ≠ none := by
  cases pc <;> simp_all [Pc.finishes, Pc.stored, Pc.ok]


/-! ## The invariant is kept by every action -/

theorem msum_step {M : Type} [AddCommMonoid M] (S H Se Q P1 Pc P2 Q' Pc' F : M)
    (h1 : S = H + (Se + (Q + (P1 + (Pc + P2))))) (h2 : Q + Pc = Q' + (Pc' + F)) :
    S = (H + F) + (Se + (Q' + (P1 + (Pc' + P2)))) := by
  have h3 : Q + (P1 + (Pc + P2)) = (Q + Pc) + (P1 + P2) := by abel
  rw [h1, h3, h2]
  abel

theorem msum_errs {M : Type} [AddCancelCommMonoid M] (E E' CH A1 A A2 A' C : M)
    (h1 : E = CH + (A1 + (A + A2))) (h2 : E' + A = E + (A' + C)) :
    E' = (CH + C) + (A1 + (A' + A2)) := by
  apply add_right_cancel (b := A)
  rw [h2, h1]
  abel

theorem mem_pendingOf (ws : List Pc) (j : pjob) :
    j ∈ pendingOf ws ↔ ∃ pc ∈ ws, j ∈ pc.pending := by
  induction ws with
  | nil => simp [pendingOf]
  | cons pc ws ih => simp [pendingOf, ih]

theorem Inv.pending_submitted {c₀ : SyncMap} {runners : List String} {s : Sys}
    (hinv : Inv c₀ runners s) (pc : Pc) (hpc : pc ∈ s.workers) (j : pjob)
    (hj : j ∈ pc.pending) : j ∈ s.submitted := by
  have h1 : j ∈ (s.submitted : Multiset pjob) := by
    rw [hinv.perm]
    simp only [Multiset.mem_add, Multiset.mem_coe]
    exact Or.inr (Or.inr (Or.inr ((mem_pendingOf _ _).2 ⟨pc, hpc, hj⟩)))
  exact Multiset.mem_coe.1 h1

theorem workerStep_load_mono (p p' : processor) (pc pc' : Pc)
    (h : workerStep p pc = some (p', pc')) (k : String)
    (hk : (SyncMap.Load p.consumers k).isSome = true) :
    (SyncMap.Load p'.consumers k).isSome = true := by
  rcases workerStep_consumers p p' pc pc' h with h1 | ⟨job, d, _, _, h1⟩
  · rw [h1]; exact hk
  · rw [h1]; exact Load_Store_isSome _ _ _ _ hk

theorem store_pending (job : pjob) (d : Driver) : job ∈ (Pc.store job d).pending := by
  simp [Pc.pending]

theorem Inv_work (c₀ : SyncMap) (runners : List String) (s : Sys) (i : Nat) (pc pc' : Pc)
    (p' : processor) (hinv : Inv c₀ runners s) (hw : s.workers[i]? = some pc)
    (hs : workerStep s.p pc = some (p', pc')) :
    Inv c₀ runners { s with p := p', workers := s.workers.set i pc',
                            handled := s.handled ++ pc.finishes } := by
  obtain ⟨l₁, l₂, hl, hset, _⟩ := getElem?_split s.workers i pc pc' hw
  have hrun : s.p.runners = runners := hinv.runners_eq
  have hpcmem : pc ∈ s.workers := by rw [hl]; simp
  have hpcok : pc.ok s.p.runners := by rw [hrun]; exact hinv.ok pc hpcmem
  have hmem : ∀ q ∈ l₁ ++ pc' :: l₂, q = pc' ∨ q ∈ s.workers := by
    intro q hq
    rw [hl]
    simp only [List.mem_append, List.mem_cons] at hq ⊢
    tauto
  constructor
  · show p'.runners = runners
    rw [workerStep_runners _ _ _ _ hs, hrun]
  · show (s.submitted : Multiset pjob) = ((s.handled ++ pc.finishes : List pjob) : Multiset pjob)
      + ((s.senders : Multiset pjob) + ((p'.queueCh : Multiset pjob)
        + (pendingOf (s.workers.set i pc') : Multiset pjob)))
    have h1 := hinv.perm
    rw [hl] at h1
    rw [hset]
    simp only [pendingOf_append, pendingOf, ← Multiset.coe_add] at h1 ⊢
    exact msum_step _ _ _ _ _ _ _ _ _ _ h1 (workerStep_perm _ _ _ _ hs)
  · show p'.wg = (s.submitted.length : Int) - ((s.handled ++ pc.finishes).length : Int)
    rw [workerStep_wg _ _ _ _ hs, hinv.count]
    simp only [List.length_append, Nat.cast_add]
    ring
  · show ∀ q ∈ s.workers.set i pc', q.ok runners
    intro q hq
    rw [hset] at hq
    rcases hmem q hq with rfl | h2
    · rw [← hrun]; exact workerStep_ok _ _ _ _ hs hpcok
    · exact hinv.ok q h2
  · show (p'.errs : Multiset error)
      = (contributions runners (s.handled ++ pc.finishes) : Multiset error)
        + (appendedOf runners (s.workers.set i pc') : Multiset error)
    have h1 := hinv.errs
    rw [hl] at h1
    rw [hset]
    have h2 := workerStep_errs _ _ _ _ hs hpcok
    rw [hrun] at h2
    simp only [appendedOf_append, appendedOf, contributions_append,
      ← Multiset.coe_add] at h1 ⊢
    exact msum_errs _ _ _ _ _ _ _ _ h1 h2
  · show ∀ (k : String) (d : Driver), SyncMap.Load p'.consumers k = some d →
      SyncMap.Load c₀ k = some d ∨
        ∃ j ∈ s.submitted, j.pipe.Name = k ∧ (construct j).2 = none ∧ (construct j).1 = d
    intro k d hk
    rcases workerStep_consumers _ _ _ _ hs with h1 | ⟨job, d₀, hpc, _, h1⟩
    · rw [h1] at hk; exact hinv.sound k d hk
    · rw [h1] at hk
      rcases Load_Store_cases _ _ _ _ _ hk with ⟨rfl, rfl⟩ | h3
      · right
        subst hpc
        have hok2 := hinv.ok _ hpcmem
        exact ⟨job, hinv.pending_submitted _ hpcmem job (store_pending job d), rfl,
          hok2.1, hok2.2⟩
      · exact hinv.sound k d h3
  · show ∀ j ∈ s.handled ++ pc.finishes, (construct j).2 = none →
      (SyncMap.Load p'.consumers j.pipe.Name).isSome = true
    intro j hj hc
    rcases List.mem_append.1 hj with h1 | h1
    · exact workerStep_load_mono _ _ _ _ hs _ (hinv.complete j h1 hc)
    · rcases finishes_stored_or_failed runners pc (hinv.ok pc hpcmem) j h1 with h2 | h2
      · exact workerStep_load_mono _ _ _ _ hs _ (hinv.stored pc hpcmem j h2)
      · exact absurd hc h2
  · show ∀ q ∈ s.workers.set i pc', ∀ j ∈ q.stored,
      (SyncMap.Load p'.consumers j.pipe.Name).isSome = true
    intro q hq j hj
    rw [hset] at hq
    rcases hmem q hq with rfl | h2
    · rcases workerStep_stored _ _ _ _ hs j hj with h3 | h3
      · exact workerStep_load_mono _ _ _ _ hs _ (hinv.stored pc hpcmem j h3)
      · exact h3
    · exact workerStep_load_mono _ _ _ _ hs _ (hinv.stored q h2 j hj)
  · show (SyncMap.keys c₀).Nodup → (SyncMap.keys p'.consumers).Nodup
    intro h0
    rcases workerStep_consumers _ _ _ _ hs with h1 | ⟨job, d₀, _, _, h1⟩
    · rw [h1]; exact hinv.nodup h0
    · rw [h1]; exact keys_Store_nodup _ _ _ (hinv.nodup h0)


theorem Inv_addBegin (c₀ : SyncMap) (runners : List String) (s : Sys) (job : pjob)
    (hinv : Inv c₀ runners s) :
    Inv c₀ runners { s with p := s.p.wgAdd, senders := s.senders ++ [job],
                            submitted := s.submitted ++ [job] } := by
  constructor
  · exact hinv.runners_eq
  · show ((s.submitted ++ [job] : List pjob) : Multiset pjob) = (s.handled : Multiset pjob)
      + (((s.senders ++ [job] : List pjob) : Multiset pjob)
        + ((s.p.queueCh : Multiset pjob) + (pendingOf s.workers : Multiset pjob)))
    rw [coe_snoc, coe_snoc, hinv.perm]
    abel
  · show s.p.wg + 1 = ((s.submitted ++ [job]).length : Int) - (s.handled.length : Int)
    rw [hinv.count]
    simp only [List.length_append, List.length_singleton, Nat.cast_add, Nat.cast_one]
    ring
  · exact hinv.ok
  · exact hinv.errs
  · intro k d hk
    rcases hinv.sound k d hk with h1 | ⟨j, hj, h2⟩
    · exact Or.inl h1
    · exact Or.inr ⟨j, List.mem_append_left _ hj, h2⟩
  · exact hinv.complete
  · exact hinv.stored
  · exact hinv.nodup

theorem send_eq (p p' : processor) (job : pjob) (h : p.send job = some p') :
    p' = { p with queueCh := p.queueCh ++ [job] } := by
  unfold processor.send at h
  split_ifs at h
  simp at h
  exact h.symm

theorem Inv_addSend (c₀ : SyncMap) (runners : List String) (s : Sys) (i : Nat) (job : pjob)
    (p' : processor) (hinv : Inv c₀ runners s) (hi : s.senders[i]? = some job)
    (hs : s.p.send job = some p') :
    Inv c₀ runners { s with p := p', senders := s.senders.eraseIdx i } := by
  obtain ⟨l₁, l₂, hl, _, herase⟩ := getElem?_split s.senders i job job hi
  rw [send_eq _ _ _ hs]
  constructor
  · exact hinv.runners_eq
  · show (s.submitted : Multiset pjob) = (s.handled : Multiset pjob)
      + ((s.senders.eraseIdx i : Multiset pjob)
        + (((s.p.queueCh ++ [job] : List pjob) : Multiset pjob)
          + (pendingOf s.workers : Multiset pjob)))
    have h1 := hinv.perm
    rw [hl] at h1
    rw [herase, coe_snoc, h1]
    rw [← Multiset.coe_add, ← Multiset.coe_add, ← Multiset.cons_coe,
      ← Multiset.singleton_add]
    abel
  · exact hinv.count
  · exact hinv.ok
  · exact hinv.errs
  · exact hinv.sound
  · exact hinv.complete
  · exact hinv.stored
  · exact hinv.nodup

theorem stop_eq (p p' : processor) (h : p.stop = some p') :
    p' = { p with closed := true } := by
  unfold processor.stop at h
  split_ifs at h
  simp at h
  exact h.symm

theorem Inv_stop (c₀ : SyncMap) (runners : List String) (s : Sys) (p' : processor)
    (hinv : Inv c₀ runners s) (hs : s.p.stop = some p') :
    Inv c₀ runners { s with p := p' } := by
  rw [stop_eq _ _ hs]
  exact ⟨hinv.runners_eq, hinv.perm, hinv.count, hinv.ok, hinv.errs, hinv.sound,
    hinv.complete, hinv.stored, hinv.nodup⟩

theorem Inv_step (c₀ : SyncMap) (runners : List String) (s s' : Sys) (a : Action)
    (hinv : Inv c₀ runners s) (h : s.step a = some s') : Inv c₀ runners s' := by
  cases a with
  | addBegin job =>
    simp only [Sys.step, Option.some.injEq] at h
    rw [← h]
    exact Inv_addBegin c₀ runners s job hinv
  | addSend i =>
    simp only [Sys.step] at h
    cases hi : s.senders[i]? with
    | none => rw [hi] at h; simp at h
    | some job =>
      rw [hi] at h
      simp only at h
      cases hs : s.p.send job with
      | none => rw [hs] at h; simp at h
      | some p' =>
        rw [hs] at h
        simp only [Option.some.injEq] at h
        rw [← h]
        exact Inv_addSend c₀ runners s i job p' hinv hi hs
  | work i =>
    simp only [Sys.step] at h
    cases hi : s.workers[i]? with
    | none => rw [hi] at h; simp at h
    | some pc =>
      rw [hi] at h
      simp only at h
      cases hs : workerStep s.p pc with
      | none => rw [hs] at h; simp at h
      | some r =>
        obtain ⟨p', pc'⟩ := r
        rw [hs] at h
        simp only [Option.some.injEq] at h
        rw [← h]
        exact Inv_work c₀ runners s i pc pc' p' hinv hi hs
  | stop =>
    simp only [Sys.step] at h
    cases hs : s.p.stop with
    | none => rw [hs] at h; simp at h
    | some p' =>
      rw [hs] at h
      simp only [Option.some.injEq] at h
      rw [← h]
      exact Inv_stop c₀ runners s p' hinv hs

theorem Inv_exec (c₀ : SyncMap) (runners : List String) (acts : List Action) (s s' : Sys)
    (hinv : Inv c₀ runners s) (h : s.exec acts = some s') : Inv c₀ runners s' := by
  induction acts generalizing s with
  | nil =>
    simp only [Sys.exec, Option.some.injEq] at h
    rw [← h]; exact hinv
  | cons a acts ih =>
    simp only [Sys.exec] at h
    cases hs : s.step a with
    | none => rw [hs] at h; simp at h
    | some s₁ =>
      rw [hs] at h
      exact ih s₁ (Inv_step c₀ runners s s₁ a hinv hs) h

theorem pendingOf_replicate_recv (n : Nat) : pendingOf (List.replicate n Pc.recv) = [] := by
  induction n with
  | zero => rfl
  | succ n ih => simp [List.replicate_succ, pendingOf, Pc.pending, ih]

theorem appendedOf_replicate_recv (runners : List String) (n : Nat) :
    appendedOf runners (List.replicate n Pc.recv) = [] := by
  induction n with
  | zero => rfl
  | succ n ih => simp [List.replicate_succ, appendedOf, Pc.appended, ih]

theorem Inv_init (log : List LogEntry) (c₀ : SyncMap) (runners : List String)
    (maxWorkers : Int) : Inv c₀ runners (Sys.init log c₀ runners maxWorkers) := by
  constructor
  · rfl
  · simp [Sys.init, newPipesProc, processor.run, pendingOf_replicate_recv]
  · simp [Sys.init, newPipesProc]
  · intro pc hpc
    simp only [Sys.init, processor.run] at hpc
    rw [List.eq_of_mem_replicate hpc]
    trivial
  · simp [Sys.init, newPipesProc, processor.run, appendedOf_replicate_recv, contributions]
  · intro k d hk
    exact Or.inl hk
  · intro j hj
    simp [Sys.init] at hj
  · intro pc hpc
    simp only [Sys.init, processor.run] at hpc
    rw [List.eq_of_mem_replicate hpc]
    intro j hj
    simp [Pc.stored] at hj
  · intro h
    exact h

theorem Inv_reachable (log : List LogEntry) (c₀ : SyncMap) (runners : List String)
    (maxWorkers : Int) (acts : List Action) (s : Sys)
    (h : (Sys.init log c₀ runners maxWorkers).exec acts = some s) : Inv c₀ runners s :=
  Inv_exec c₀ runners acts _ s (Inv_init log c₀ runners maxWorkers) h


/-! ## Claims about the pool -/

theorem Inv.length_eq {c₀ : SyncMap} {runners : List String} {s : Sys}
    (hinv : Inv c₀ runners s) :
    s.submitted.length
      = s.handled.length
        + (s.senders.length + (s.p.queueCh.length + (pendingOf s.workers).length)) := by
  have h := congrArg Multiset.card hinv.perm
  simpa using h

theorem Inv.wg_eq {c₀ : SyncMap} {runners : List String} {s : Sys}
    (hinv : Inv c₀ runners s) :
    s.p.wg = ((s.senders.length + (s.p.queueCh.length + (pendingOf s.workers).length) : Nat)
      : Int) := by
  rw [hinv.count, hinv.length_eq]
  push_cast
  ring

theorem Inv.handled_perm {c₀ : SyncMap} {runners : List String} {s : Sys}
    (hinv : Inv c₀ runners s) (h : s.p.wg = 0) : s.handled.Perm s.submitted := by
  have h1 := hinv.wg_eq
  rw [h] at h1
  have h2 : s.senders.length + (s.p.queueCh.length + (pendingOf s.workers).length) = 0 := by
    exact_mod_cast h1.symm
  have h3 : s.senders = [] := List.length_eq_zero.1 (by omega)
  have h4 : s.p.queueCh = [] := List.length_eq_zero.1 (by omega)
  have h5 : pendingOf s.workers = [] := List.length_eq_zero.1 (by omega)
  have h6 := hinv.perm
  rw [h3, h4, h5] at h6
  simp only [Multiset.coe_nil, add_zero] at h6
  exact (Multiset.coe_eq_coe.1 h6).symm

theorem Inv.pending_nil {c₀ : SyncMap} {runners : List String} {s : Sys}
    (hinv : Inv c₀ runners s) (h : s.p.wg = 0) : pendingOf s.workers = [] := by
  have h1 := hinv.wg_eq
  rw [h] at h1
  have h2 : s.senders.length + (s.p.queueCh.length + (pendingOf s.workers).length) = 0 := by
    exact_mod_cast h1.symm
  exact List.length_eq_zero.1 (by omega)

theorem appended_nil_of_pending (runners : List String) (pc : Pc) (h : pc.pending = []) :
    pc.appended runners = [] := by
  cases pc <;> simp_all [Pc.pending, Pc.appended]

theorem appendedOf_nil_of_pending (runners : List String) (ws : List Pc)
    (h : pendingOf ws = []) : appendedOf runners ws = [] := by
  induction ws with
  | nil => rfl
  | cons pc ws ih =>
    simp only [pendingOf, List.append_eq_nil] at h
    simp [appendedOf, appended_nil_of_pending runners pc h.1, ih h.2]

theorem Inv.errs_done {c₀ : SyncMap} {runners : List String} {s : Sys}
    (hinv : Inv c₀ runners s) (h : s.p.wg = 0) :
    s.p.errs.Perm (contributions runners s.handled) := by
  have h1 := hinv.errs
  rw [appendedOf_nil_of_pending runners _ (hinv.pending_nil h)] at h1
  simp only [Multiset.coe_nil, add_zero] at h1
  exact Multiset.coe_eq_coe.1 h1

theorem mem_contributions (runners : List String) (jobs : List pjob) (e : error) :
    e ∈ contributions runners jobs ↔ ∃ j ∈ jobs, e ∈ contribution runners j := by
  induction jobs with
  | nil => simp [contributions]
  | cons j jobs ih => simp [contributions, ih]

theorem errors_fst (p : processor) : p.errors.1 = p.errs := copy_make p.errs

/-- Claim C9: from a new processor (counter 0), along every schedule of `add`
calls and worker actions, the pending counter equals the number of submitted
requests minus the number of requests handled to their `wg.Done()`; it is the
number of requests waiting in `add`, queued, or held by a worker before its
`wg.Done()`; it is never negative; only submitted requests are handled, once
each; and the counter is 0 exactly when every submitted request is handled. -/
theorem C9_pending_counter (log : List LogEntry) (c₀ : SyncMap) (runners : List String)
    (maxWorkers : Int) (acts : List Action) (s : Sys)
    (h : (Sys.init log c₀ runners maxWorkers).exec acts = some s) :
    (Sys.init log c₀ runners maxWorkers).p.wg = 0 ∧
    s.p.wg = (s.submitted.length : Int) - (s.handled.length : Int) ∧
    s.p.wg = ((s.senders.length + (s.p.queueCh.length + (pendingOf s.workers).length) : Nat)
      : Int) ∧
    0 ≤ s.p.wg ∧
    s.handled.Subperm s.submitted ∧
    (s.p.wg = 0 ↔ s.handled.Perm s.submitted) := by
  have hinv := Inv_reachable log c₀ runners maxWorkers acts s h
  refine ⟨rfl, hinv.count, hinv.wg_eq, ?_, ?_, ?_, ?_⟩
  · rw [hinv.wg_eq]; exact Int.natCast_nonneg _
  · rw [← Multiset.coe_le, hinv.perm]
    exact Multiset.le_add_right _ _
  · exact hinv.handled_perm
  · intro hp
    rw [hinv.count, hp.length_eq]
    ring

/-- Witness of C9: three requests submitted and handled by two workers. -/
theorem C9_pending_counter_witness :
    batchFinal.p.wg = (batchFinal.submitted.length : Int) - (batchFinal.handled.length : Int) ∧
    0 ≤ batchFinal.p.wg ∧
    (batchFinal.p.wg = 0 ↔ batchFinal.handled.Perm batchFinal.submitted) :=
  ⟨(C9_pending_counter [] [] [] 2 batchSchedule batchFinal rfl).2.1,
   (C9_pending_counter [] [] [] 2 batchSchedule batchFinal rfl).2.2.2.1,
   (C9_pending_counter [] [] [] 2 batchSchedule batchFinal rfl).2.2.2.2.2⟩


theorem contributions_nil_of_forall (runners : List String) (jobs : List pjob)
    (h : ∀ j ∈ jobs, contribution runners j = []) : contributions runners jobs = [] := by
  induction jobs with
  | nil => rfl
  | cons j jobs ih =>
    simp only [contributions]
    rw [h j (List.mem_cons_self _ _), ih (fun j' hj' => h j' (List.mem_cons_of_mem _ hj'))]
    rfl

theorem contribution_registered (runners : List String) (j : pjob)
    (hok : (construct j).2 = none) (hrun : j.pipe.Name ∉ runners) :
    contribution runners j = [] := by
  simp [contribution, hok, hrun]

/-- Claim C7: for every `N` and every batch of `N` requests with pairwise distinct
pipeline names, none in `runners`, all built by their factories, submitted to a
new processor with an empty registry (and empty error log): in every state,
reached by any schedule, in which all of them are handled, the registry has
exactly `N` entries, its keys are the names of the batch, each name is mapped
to the driver built for it, `errors()` is empty and the counter is 0 (so
`wait()` returns). -/
theorem C7_batch_registered (log : List LogEntry) (runners : List String)
    (maxWorkers : Int) (batch : List pjob) (acts : List Action) (s : Sys)
    (hnames : (batch.map (fun j => j.pipe.Name)).Nodup)
    (hrun : ∀ j ∈ batch, j.pipe.Name ∉ runners)
    (hok : ∀ j ∈ batch, (construct j).2 = none)
    (h : (Sys.init log [] runners maxWorkers).exec acts = some s)
    (hsub : s.submitted.Perm batch) (hdone : s.handled.Perm batch) :
    (Sys.init log [] runners maxWorkers).p.errs = [] ∧
    s.p.consumers.length = batch.length ∧
    (SyncMap.keys s.p.consumers).Perm (batch.map (fun j => j.pipe.Name)) ∧
    (∀ j ∈ batch, SyncMap.Load s.p.consumers j.pipe.Name = some (construct j).1) ∧
    s.p.errors.1 = [] ∧
    s.p.wg = 0 ∧ s.p.wait = some s.p := by
  have hinv := Inv_reachable log [] runners maxWorkers acts s h
  have hwg : s.p.wg = 0 := by
    rw [hinv.count, hsub.length_eq, hdone.length_eq]; ring
  have hload : ∀ j ∈ batch, SyncMap.Load s.p.consumers j.pipe.Name = some (construct j).1 := by
    intro j hj
    have h1 := hinv.complete j (hdone.mem_iff.2 hj) (hok j hj)
    obtain ⟨d, hd⟩ := Option.isSome_iff_exists.1 h1
    rcases hinv.sound _ d hd with h2 | ⟨j', hj', hn, _, hd'⟩
    · simp [SyncMap.Load] at h2
    · have hj'b : j' ∈ batch := hsub.mem_iff.1 hj'
      have : j' = j := List.inj_on_of_nodup_map hnames hj'b hj hn
      rw [hd, ← hd', this]
  have hkeys : (SyncMap.keys s.p.consumers).Perm (batch.map (fun j => j.pipe.Name)) := by
    rw [List.perm_ext_iff_of_nodup (hinv.nodup (by simp [SyncMap.keys])) hnames]
    intro k
    constructor
    · intro hk
      obtain ⟨d, hd⟩ := Option.isSome_iff_exists.1 ((mem_keys_iff _ _).1 hk)
      rcases hinv.sound _ d hd with h2 | ⟨j', hj', hn, _, _⟩
      · simp [SyncMap.Load] at h2
      · exact List.mem_map.2 ⟨j', hsub.mem_iff.1 hj', hn⟩
    · intro hk
      obtain ⟨j, hj, hn⟩ := List.mem_map.1 hk
      rw [mem_keys_iff, ← hn, hload j hj]
      rfl
  have herrs : s.p.errs = [] := by
    have h1 := hinv.errs_done hwg
    rw [contributions_nil_of_forall runners s.handled (fun j hj =>
      contribution_registered runners j (hok j (hdone.mem_iff.1 hj))
        (hrun j (hdone.mem_iff.1 hj)))] at h1
    exact List.perm_nil.1 h1
  refine ⟨rfl, ?_, hkeys, hload, ?_, hwg, ?_⟩
  · have := hkeys.length_eq
    simpa [SyncMap.keys] using this
  · rw [errors_fst, herrs]
  · simp [processor.wait, hwg]

/-- Witness of C7: the scenario with three requests, here with two workers. -/
theorem C7_batch_registered_witness :
    batchFinal.p.consumers.length = [jobA, jobB, jobC].length ∧
    batchFinal.p.errors.1 = [] ∧ batchFinal.p.wg = 0 :=
  have h := C7_batch_registered [] [] 2 [jobA, jobB, jobC] batchSchedule batchFinal
    (by decide) (by decide) (by decide) rfl (List.Perm.refl _) (List.Perm.refl _)
  ⟨h.2.1, h.2.2.2.2.1, h.2.2.2.2.2.1⟩


/-- Claim C6, as the code has it: when the factory of a submitted request returns
an error `e`, then once the counter is back to 0 (`wait()` returns) `errors()`
contains `e`, and the registry has no entry for the pipeline name provided it
had none when the processor was created and no submitted request of that name
was built; in particular, for a new processor with an empty registry given
that single request, `errors()` is exactly `[e]` and the registry is empty. -/
theorem C6_failed_request_reported (log : List LogEntry) (c₀ : SyncMap)
    (runners : List String) (maxWorkers : Int) (acts : List Action) (s : Sys)
    (job : pjob) (e : String)
    (h : (Sys.init log c₀ runners maxWorkers).exec acts = some s)
    (hjob : job ∈ s.submitted) (hwait : s.p.wg = 0)
    (hfail : (construct job).2 = some e) :
    some e ∈ s.p.errors.1 ∧
    (SyncMap.Load c₀ job.pipe.Name = none →
      (∀ j ∈ s.submitted, j.pipe.Name = job.pipe.Name → (construct j).2 ≠ none) →
      SyncMap.Load s.p.consumers job.pipe.Name = none) ∧
    (c₀ = [] → s.submitted = [job] →
      s.p.errors.1 = [some e] ∧ s.p.consumers = []) := by
  have hinv := Inv_reachable log c₀ runners maxWorkers acts s h
  have hperm := hinv.handled_perm hwait
  have herrs := hinv.errs_done hwait
  have hcontrib : contribution runners job = [some e] := by
    simp [contribution, hfail]
  refine ⟨?_, ?_, ?_⟩
  · rw [errors_fst, herrs.mem_iff, mem_contributions]
    exact ⟨job, hperm.mem_iff.2 hjob, by rw [hcontrib]; exact List.mem_singleton.2 rfl⟩
  · intro h0 hothers
    cases hl : SyncMap.Load s.p.consumers job.pipe.Name with
    | none => rfl
    | some d =>
      rcases hinv.sound _ d hl with h2 | ⟨j, hj, hn, hc, _⟩
      · rw [h0] at h2; exact absurd h2 (by simp)
      · exact absurd hc (hothers j hj hn)
  · intro hc0 hsub
    have hhandled : s.handled = [job] := by
      rw [hsub] at hperm
      exact List.perm_singleton.1 hperm
    constructor
    · rw [errors_fst]
      rw [hhandled] at herrs
      simp only [contributions, hcontrib, List.append_nil] at herrs
      exact List.perm_singleton.1 herrs
    · apply Load_eq_none_all
      intro k
      cases hl : SyncMap.Load s.p.consumers k with
      | none => rfl
      | some d =>
        rcases hinv.sound _ d hl with h2 | ⟨j, hj, _, hc, _⟩
        · rw [hc0] at h2; simp [SyncMap.Load] at h2
        · rw [hsub, List.mem_singleton] at hj
          rw [hj, hfail] at hc
          exact absurd hc (by simp)

/-- Witness of C6: the scenario of one request refused by its factory. -/
theorem C6_failed_request_reported_witness :
    refusedFinal.p.errors.1 = [some "connect refused"] ∧ refusedFinal.p.consumers = [] :=
  (C6_failed_request_reported [] [] [] 1 singleSchedule refusedFinal jobRefused
    "connect refused" rfl (List.Mem.head _) rfl rfl).2.2 rfl rfl

/-- Counterexample to C6 as stated.  First: a processor created with a registry
that already holds a driver for "alpha" handles one request for "alpha" whose
factory fails; `wait()` returns and the registry still has the entry.  Second:
a new processor with an empty registry handles a built request and a refused
request of the same name "alpha"; `wait()` returns and the registry has the
entry of the built one. -/
theorem C6_registry_entry_survives :
    ((Sys.init [] [("alpha", deadlineDriver)] [] 1).exec singleSchedule = some occupiedFinal ∧
      jobRefused ∈ occupiedFinal.submitted ∧
      occupiedFinal.p.wait = some occupiedFinal.p ∧
      (construct jobRefused).2 = some "connect refused" ∧
      ¬ (SyncMap.Load occupiedFinal.p.consumers jobRefused.pipe.Name = none)) ∧
    ((Sys.init [] [] [] 1).exec clashSchedule = some clashFinal ∧
      jobRefused ∈ clashFinal.submitted ∧
      clashFinal.p.wait = some clashFinal.p ∧
      (construct jobRefused).2 = some "connect refused" ∧
      ¬ (SyncMap.Load clashFinal.p.consumers jobRefused.pipe.Name = none)) := by
  refine ⟨⟨rfl, List.Mem.head _, rfl, rfl, ?_⟩,
    ⟨rfl, List.Mem.tail _ (List.Mem.head _), rfl, rfl, ?_⟩⟩
  · intro hnone
    have hsome :
        (SyncMap.Load occupiedFinal.p.consumers jobRefused.pipe.Name).isSome = true := rfl
    rw [hnone] at hsome
    exact Bool.false_ne_true hsome
  · intro hnone
    have hsome :
        (SyncMap.Load clashFinal.p.consumers jobRefused.pipe.Name).isSome = true := rfl
    rw [hnone] at hsome
    exact Bool.false_ne_true hsome

end Jobs
